import Mathlib

/-!
Verification development for the youtube-downloader Tauri backend
(`src-tauri/src`).  The Rust sources are shallowly embedded: pure Rust
functions become Lean functions over `List Char` / `String`, `f64` percent
values are modelled as exact rationals (all inputs of interest are short
decimal literals), process/filesystem/HTTP boundaries are modelled as
explicit environment records, and fallible code returns `Option` / `Except`.
-/

namespace Youwee

/-- Model of Rust `char::is_whitespace` / regex `\s` restricted to the ASCII
whitespace actually produced by yt-dlp output (space, tab, CR, LF). -/
def isWs (c : Char) : Bool := c.isWhitespace

/-- `p.isPrefixOf l` as a named helper: does `l` start with `p`? -/
def startsWithSeq (p l : List Char) : Bool := p.isPrefixOf l

/-- Substring containment over char lists, mirroring Rust `str::contains`. -/
def containsSeq (n : List Char) : List Char → Bool
  | [] => n.isPrefixOf ([] : List Char)
  | c :: rest => n.isPrefixOf (c :: rest) || containsSeq n rest

/-- Rust `str::trim`: drop leading and trailing whitespace. -/
def rustTrim (l : List Char) : List Char :=
  (((l.dropWhile isWs).reverse).dropWhile isWs).reverse

/-- `rustTrim` lifted to `String`. -/
def rustTrimStr (s : String) : String := String.mk (rustTrim s.data)

/-- Numeric value of a digit run (the regex group `\d+`), as in
`str::parse`: `"042"` parses to `42`. -/
def natOfDigits (l : List Char) : Nat :=
  l.foldl (fun a c => 10 * a + (c.toNat - 48)) 0

/-- Powers of ten (kept away from `Monoid.npow` so that the kernel can
evaluate concrete instances). -/
def pow10 : Nat → Nat
  | 0 => 1
  | n + 1 => 10 * pow10 n

/-- Value of the matched `f64` percent literal `d "." f` (or just `d` when
`f = []`), exact as a rational: every such literal short enough to occur in
yt-dlp output is also exactly representable, so the `f64` parse is modelled
as the exact decimal value. -/
def decimalVal (d f : List Char) : Rat :=
  mkRat (Int.ofNat (natOfDigits d * pow10 f.length + natOfDigits f)) (pow10 f.length)

/-- Rust `"…".parse::<u32>().ok()`: digit runs overflowing `u32` yield
`none` (4294967296 = 2^32). -/
def parseU32 (n : Nat) : Option Nat :=
  if n < 4294967296 then some n else none

/-! ## `parse_progress` (src-tauri/src/lib.rs, lines 248-272)

The progress regex is `(\d+\.?\d*)%.*?(?:at\s+(\S+))?.*?(?:ETA\s+(\S+))?`.
Under the `regex` crate's leftmost-first semantics the two lazy `.*?`
pieces match the empty string and the optional groups are attempted only
at the position immediately following the already-matched text (the whole
tail of the pattern can match empty, so the engine never expands `.*?`).
The embedding below reproduces exactly that behaviour. -/

/-- Attempt of `(\d+\.?\d*)%` at the start of `l`: a maximal digit run,
optionally a dot and a second maximal digit run, then `%`.  Returns the
percent value and the remaining characters after the `%`. -/
def matchPercentAt (l : List Char) : Option (Rat × List Char) :=
  let s := l.span Char.isDigit
  if s.1 = [] then none
  else
    match s.2 with
    | [] => none
    | c :: rest =>
      if c = '%' then some (decimalVal s.1 [], rest)
      else if c = '.' then
        let s2 := rest.span Char.isDigit
        match s2.2 with
        | [] => none
        | c2 :: rest2 => if c2 = '%' then some (decimalVal s.1 s2.1, rest2) else none
      else none

/-- Leftmost occurrence of the percent pattern: the regex engine advances
the start position one character at a time. -/
def findPercent : List Char → Option (Rat × List Char)
  | [] => none
  | c :: rest =>
    match matchPercentAt (c :: rest) with
    | some r => some r
    | none => findPercent rest

/-- Attempt of the optional group `kw ++ \s+ ++ (\S+)` exactly at the start
of `l` (the only position the engine ever tries it, see above).  Returns
the captured token and the rest. -/
def matchTokenAfter (kw : List Char) (l : List Char) : Option (List Char × List Char) :=
  if kw.isPrefixOf l then
    let r := l.drop kw.length
    let sw := r.span isWs
    if sw.1 = [] then none
    else
      let st := sw.2.span (fun c => !isWs c)
      if st.1 = [] then none else some (st.1, st.2)
  else none

/-- Attempt of `Downloading item (\d+) of (\d+)` at the start of `l`. -/
def matchPlaylistAt (l : List Char) : Option (Nat × Nat) :=
  let kw := ("Downloading item ").data
  if kw.isPrefixOf l then
    let r := l.drop kw.length
    let s1 := r.span Char.isDigit
    if s1.1 = [] then none
    else
      let sep := (" of ").data
      if sep.isPrefixOf s1.2 then
        let s2 := (s1.2.drop sep.length).span Char.isDigit
        if s2.1 = [] then none else some (natOfDigits s1.1, natOfDigits s2.1)
      else none
  else none

/-- Leftmost occurrence of the playlist pattern. -/
def findPlaylist : List Char → Option (Nat × Nat)
  | [] => none
  | c :: rest =>
    match matchPlaylistAt (c :: rest) with
    | some r => some r
    | none => findPlaylist rest

/-- The tuple returned by `parse_progress`:
`(percent, speed, eta, playlist_index, playlist_count)`. -/
structure ProgressTuple where
  percent : Rat
  speed : List Char
  eta : List Char
  playlistIndex : Option Nat
  playlistCount : Option Nat
deriving DecidableEq

/-- Embedding of `parse_progress` (lib.rs:248-272). -/
def parse_progress (line : List Char) : Option ProgressTuple :=
  let pl :=
    if containsSeq ("Downloading item").data line then findPlaylist line else none
  let pi := pl.bind (fun p => parseU32 p.1)
  let pc := pl.bind (fun p => parseU32 p.2)
  if containsSeq ("[download]").data line && containsSeq ("%").data line then
    match findPercent line with
    | none => none
    | some (v, after) =>
      match matchTokenAfter ("at").data after with
      | some (tok, rest) =>
        match matchTokenAfter ("ETA").data rest with
        | some (tok2, _) => some ⟨v, tok, tok2, pi, pc⟩
        | none => some ⟨v, tok, [], pi, pc⟩
      | none =>
        match matchTokenAfter ("ETA").data after with
        | some (tok2, _) => some ⟨v, [], tok2, pi, pc⟩
        | none => some ⟨v, [], [], pi, pc⟩
  else none

/-- `parse_progress` lifted to `String` input. -/
def parseProgressStr (line : String) : Option ProgressTuple :=
  parse_progress line.data

/-! ## Terminal outcome of a download (lib.rs 422-443 and 521-542)

`download_video`'s event loop and `handle_tokio_download`'s tail classify
the terminated child process.  The classification is a pure function of the
global cancel flag and the exit status; the surrounding process plumbing is
external. -/

/-- The progress record emitted to the front end (lib.rs 12-22). -/
structure DownloadProgress where
  id : String
  percent : Rat
  speed : String
  eta : String
  status : String
  title : Option String
  playlist_index : Option Nat
  playlist_count : Option Nat
deriving DecidableEq

/-- The terminal `finished` event built at lib.rs 427-438 (and 527-538). -/
def finishedProgress (id : String) (title : Option String)
    (pidx pcnt : Option Nat) : DownloadProgress :=
  ⟨id, 100, "", "", "finished", title, pidx, pcnt⟩

/-- Embedding of the `CommandEvent::Terminated` arm of `download_video`
(lib.rs 422-443): first component is the event emitted (if any), second the
command's return value.  `code` is the child's exit code
(`status.code : Option<i32>`). -/
def handle_terminated (cancelFlag : Bool) (code : Option Int) (id : String)
    (title : Option String) (pidx pcnt : Option Nat) :
    Option DownloadProgress × Except String Unit :=
  if cancelFlag then (none, .error "Download cancelled")
  else if code = some 0 then
    (some (finishedProgress id title pidx pcnt), .ok ())
  else (none, .error "Download failed")

/-- Embedding of the tail of `handle_tokio_download` (lib.rs 521-542), after
`process.wait()`; `success` is `status.success()`. -/
def tokio_wait_outcome (cancelFlag : Bool) (success : Bool) (id : String)
    (title : Option String) (pidx pcnt : Option Nat) :
    Option DownloadProgress × Except String Unit :=
  if cancelFlag then (none, .error "Download cancelled")
  else if success then
    (some (finishedProgress id title pidx pcnt), .ok ())
  else (none, .error "Download failed")

/-! ## Summarization client (src-tauri/src/services/ai.rs) -/

/-- `AIProvider` (ai.rs 7-11). -/
inductive AIProvider where
  | gemini
  | openai
  | ollama
deriving DecidableEq

/-- `SummaryStyle` (ai.rs 22-25). -/
inductive SummaryStyle where
  | short
  | detailed
deriving DecidableEq

/-- `AIConfig` (ai.rs 35-43). -/
structure AIConfig where
  enabled : Bool
  provider : AIProvider
  api_key : Option String
  model : String
  ollama_url : Option String
  summary_style : SummaryStyle
  summary_language : String
deriving DecidableEq

/-- `AIConfig::default` (ai.rs 46-56). -/
def AIConfig.defaultConfig : AIConfig :=
  ⟨false, .gemini, none, "gemini-2.0-flash", some "http://localhost:11434", .short, "auto"⟩

/-- `AIError` (ai.rs 69-75). -/
inductive AIError where
  | NoApiKey
  | NoTranscript
  | ApiError (msg : String)
  | NetworkError (msg : String)
  | ParseError (msg : String)
deriving DecidableEq

/-- The `Display` impl for `AIError` (ai.rs 77-87), used by
`From<AIError> for String`. -/
def AIError.message : AIError → String
  | .NoApiKey => "API key not configured. Please add your API key in Settings."
  | .NoTranscript => "No transcript available for this video."
  | .ApiError msg => "AI API error: " ++ msg
  | .NetworkError msg => "Network error: " ++ msg
  | .ParseError msg => "Failed to parse response: " ++ msg

/-- Style directive of `build_prompt` (ai.rs 97-100). -/
def style_instruction : SummaryStyle → String
  | .short => "Provide a concise summary in 2-3 sentences."
  | .detailed => "Provide a detailed summary with bullet points covering the main topics and key takeaways."

/-- Display-name mapping of `build_prompt` (ai.rs 105-117). -/
def language_name (language : String) : String :=
  if language = "en" then "English"
  else if language = "vi" then "Vietnamese"
  else if language = "ja" then "Japanese"
  else if language = "ko" then "Korean"
  else if language = "zh" then "Chinese"
  else if language = "es" then "Spanish"
  else if language = "fr" then "French"
  else if language = "de" then "German"
  else if language = "pt" then "Portuguese"
  else if language = "ru" then "Russian"
  else language

/-- Language directive of `build_prompt` (ai.rs 102-118). -/
def language_instruction (language : String) : String :=
  if language = "auto" then "Respond in the same language as the transcript."
  else "Respond in " ++ language_name language ++ "."

/-- UTF-8 byte length of a character list. -/
def byteLen (l : List Char) : Nat :=
  l.foldl (fun a c => a + c.utf8Size) 0

/-- Rust `str::len`: the UTF-8 byte length. -/
def rustLen (s : String) : Nat := byteLen s.data

/-- The byte slice `&s[..n]`: take characters as long as their UTF-8 sizes
fit exactly into `n` bytes; `none` models the Rust panic raised when byte
`n` is not a character boundary. -/
def takeBytes : Nat → List Char → Option (List Char)
  | 0, _ => some []
  | _ + 1, [] => none
  | n + 1, c :: cs =>
    if c.utf8Size ≤ n + 1 then (takeBytes (n + 1 - c.utf8Size) cs).map (c :: ·)
    else none

/-- The final `format!` of `build_prompt` (ai.rs 128-136) applied to an
already-truncated transcript body. -/
def promptText (style : SummaryStyle) (language : String) (body : String) : String :=
  "You are a helpful assistant that summarizes video content.\n\n"
    ++ style_instruction style ++ "\n" ++ language_instruction language
    ++ "\n\nHere is the video transcript:\n\n" ++ body ++ "\n\nSummary:"

/-- Embedding of `build_prompt` (ai.rs 96-137).  Returns `none` when the
byte slice `&transcript[..8000]` would panic (cut inside a multi-byte
character). -/
def build_prompt (transcript : String) (style : SummaryStyle) (language : String) :
    Option String :=
  let max_len := 8000
  let truncated : Option String :=
    if max_len < rustLen transcript then
      (takeBytes max_len transcript.data).map
        (fun l => String.mk l ++ "... [truncated]")
    else some transcript
  truncated.map (fun body => promptText style language body)

/-- The HTTP request each backend binding constructs before its `send()`
call.  The network round trip and JSON response extraction are external
boundaries; what the code itself determines is the target URL and the
prompt (held as `Option String` because `build_prompt` may panic). -/
structure Dispatch where
  provider : String
  url : String
  prompt : Option String
  model : String
deriving DecidableEq

/-- Request constructed by `generate_with_gemini` (ai.rs 140-165). -/
def generate_with_gemini (api_key model transcript : String)
    (style : SummaryStyle) (language : String) : Dispatch :=
  ⟨"Gemini",
    "https://generativelanguage.googleapis.com/v1beta/models/" ++ model
      ++ ":generateContent?key=" ++ api_key,
    build_prompt transcript style language, model⟩

/-- Request constructed by `generate_with_openai` (ai.rs 204-231). -/
def generate_with_openai (_api_key model transcript : String)
    (style : SummaryStyle) (language : String) : Dispatch :=
  ⟨"OpenAI", "https://api.openai.com/v1/chat/completions",
    build_prompt transcript style language, model⟩

/-- Rust `str::trim_end_matches('/')`. -/
def trimEndSlashes (l : List Char) : List Char :=
  (l.reverse.dropWhile (fun c => c = '/')).reverse

/-- Request constructed by `generate_with_ollama` (ai.rs 260-279). -/
def generate_with_ollama (ollama_url model transcript : String)
    (style : SummaryStyle) (language : String) : Dispatch :=
  ⟨"Ollama", String.mk (trimEndSlashes ollama_url.data) ++ "/api/generate",
    build_prompt transcript style language, model⟩

/-- Embedding of `generate_summary` (ai.rs 313-335): the empty-transcript
guard followed by the provider dispatch.  An `.ok` value is the HTTP
request the selected backend would issue; every `.error` is returned
before any request is constructed. -/
def generate_summary (config : AIConfig) (transcript : String) :
    Except AIError Dispatch :=
  if rustTrimStr transcript = "" then .error .NoTranscript
  else
    match config.provider with
    | .gemini =>
      match config.api_key with
      | none => .error .NoApiKey
      | some k =>
        .ok (generate_with_gemini k config.model transcript
          config.summary_style config.summary_language)
    | .openai =>
      match config.api_key with
      | none => .error .NoApiKey
      | some k =>
        .ok (generate_with_openai k config.model transcript
          config.summary_style config.summary_language)
    | .ollama =>
      let u := config.ollama_url.getD "http://localhost:11434"
      .ok (generate_with_ollama u config.model transcript
        config.summary_style config.summary_language)

/-! ## `generate_video_summary` (src-tauri/src/commands/ai.rs 51-72)

The command loads the persisted `AIConfig` (an external collaborator,
passed here as an argument), rejects disabled configurations, and only
then calls `generate_summary`.  The optional history-database update after
a successful summary is an external effect that does not influence the
enabled/disabled decision. -/
def generate_video_summary (config : AIConfig) (transcript : String) :
    Except String Dispatch :=
  if config.enabled = false then
    .error "AI features are disabled. Enable them in Settings."
  else
    match generate_summary config transcript with
    | .error e => .error e.message
    | .ok d => .ok d

/-! ## Caption markup parser (src-tauri/src/commands/video.rs 114-158) -/

/-- Scan for the first `'>'`: returns the characters before it and the
characters after it (`regex` needs at least one character before the
`'>'`, checked by the caller). -/
def findTagEnd : List Char → Option (List Char × List Char)
  | [] => none
  | c :: rest =>
    if c = '>' then some ([], rest)
    else (findTagEnd rest).map (fun p => (c :: p.1, p.2))

/-- `replace_all` of the regex `<[^>]+>` with the empty string: at each
`'<'` the engine matches up to the next `'>'` provided at least one
character lies between (so `"<>"` is left alone), removes the match, and
resumes after it.  Structural recursion on a fuel argument keeps the
definition kernel-reducible; `fuel ≥ l.length` suffices because every step
strictly shrinks the list. -/
def stripTagsFuel : Nat → List Char → List Char
  | 0, _ => []
  | _, [] => []
  | fuel + 1, c :: rest =>
    if c = '<' then
      match findTagEnd rest with
      | some (inner, after) =>
        if inner = [] then c :: stripTagsFuel fuel rest
        else stripTagsFuel fuel after
      | none => c :: stripTagsFuel fuel rest
    else c :: stripTagsFuel fuel rest

/-- The tag-stripping pass with enough fuel for its input. -/
def stripTags (l : List Char) : List Char := stripTagsFuel l.length l

/-- Split on `'\n'`; always returns at least one (possibly empty) segment. -/
def splitNl : List Char → List (List Char)
  | [] => [[]]
  | c :: cs =>
    if c = '\n' then [] :: splitNl cs
    else
      match splitNl cs with
      | [] => [[c]]
      | t :: ts => (c :: t) :: ts

/-- Strip one trailing `'\r'`, as Rust `str::lines` does per line. -/
def stripCr (l : List Char) : List Char :=
  if l.getLast? = some '\r' then l.dropLast else l

/-- Rust `str::lines`: split on `'\n'`, drop a final empty segment (so a
trailing newline does not yield an extra line and `""` has no lines), and
strip one trailing `'\r'` from each line. -/
def rustLines (l : List Char) : List (List Char) :=
  let parts := splitNl l
  let parts := if parts.getLast? = some [] then parts.dropLast else parts
  parts.map stripCr

/-- One iteration of the `parse_subtitle_file` loop body up to (but not
including) the duplicate-of-previous check (video.rs 117-150): trim, skip
header/timestamp/cue-id/styling lines, strip inline tags, re-trim.  `none`
means the line is skipped, `some c` that the cleaned text `c` is a push
candidate. -/
def lineClean (line : List Char) : Option (List Char) :=
  let t := rustTrim line
  if t = [] then none
  else if startsWithSeq ("WEBVTT").data t || startsWithSeq ("NOTE").data t then none
  else if containsSeq ("-->").data t then none
  else if t.all Char.isDigit then none
  else if startsWithSeq ("align:").data t || startsWithSeq ("position:").data t
      || containsSeq ("::").data t then none
  else
    let clean := rustTrim (stripTags t)
    if clean = [] then none else some clean

/-- The push step of `parse_subtitle_file` (video.rs 152-154): a cleaned
line is appended unless it equals the previously retained line. -/
def subtitleFold (texts : List (List Char)) (line : List Char) : List (List Char) :=
  match lineClean line with
  | none => texts
  | some clean => if texts.getLast? = some clean then texts else texts ++ [clean]

/-- The retained cleaned lines of a caption file. -/
def retainedLines (content : List Char) : List (List Char) :=
  (rustLines content).foldl subtitleFold []

/-- Rust `Vec::join(" ")`: the pieces separated by single spaces. -/
def joinSpace : List (List Char) → List Char
  | [] => []
  | [t] => t
  | t :: ts => t ++ ' ' :: joinSpace ts

/-- Embedding of `parse_subtitle_file` (video.rs 114-158): retained lines
joined with single spaces (`texts.join(" ")`). -/
def parse_subtitle_file (content : String) : String :=
  String.mk (joinSpace (retainedLines content.data))

/-! ## Transcript acquisition pipeline (src-tauri/src/commands/video.rs 11-111)

`get_video_transcript` shells out to yt-dlp twice and reads a temporary
directory; those boundaries are captured in `TranscriptEnv`:
`printOutput` is the result of the first `run_ytdlp_json` call with each
stdout line already fed through `serde_json::from_str` (an external
crate), `subFiles` is the `read_dir` enumeration of the private temporary
directory after the second call, and `description` is the video's
descriptive metadata as the spec's §4.4 understands it — the field exists
in the environment so that (non-)use of a description fallback is
observable.  The returned `FsState` records which temporary artifacts
remain on exit. -/

/-- A `serde_json::Value`. -/
inductive Json where
  | null
  | bool (b : Bool)
  | num (n : Int)
  | str (s : String)
  | arr (items : List Json)
  | obj (fields : List (String × Json))

/-- `Value::get(key)` on an object's field list: first binding wins. -/
def jsonGet (fields : List (String × Json)) (key : String) : Option Json :=
  (fields.find? (fun f => f.1 = key)).map (fun f => f.2)

/-- The inner item loop of `extract_transcript_from_output`
(video.rs 93-101): items carrying a `url` key are skipped, otherwise the
`text` string field is collected. -/
def itemText (item : Json) : Option String :=
  match item with
  | .obj fields =>
    if (jsonGet fields "url").isSome then none
    else
      match jsonGet fields "text" with
      | some (.str t) => some t
      | _ => none
  | _ => none

/-- The per-object-field loop of `extract_transcript_from_output`
(video.rs 90-107): the first field whose value is an array yielding a
non-empty `texts` vector produces `texts.join(" ")`. -/
def objExtract : List (String × Json) → Option String
  | [] => none
  | (_, data) :: rest =>
    match data with
    | .arr items =>
      let texts := items.filterMap itemText
      if texts = [] then objExtract rest else some (String.intercalate " " texts)
    | _ => objExtract rest

/-- Embedding of `extract_transcript_from_output` (video.rs 83-111) over
the per-line `serde_json` parse results (`none` = the line failed to
parse and is skipped). -/
def extract_transcript_from_output : List (Option Json) → Option String
  | [] => none
  | none :: rest => extract_transcript_from_output rest
  | some j :: rest =>
    match j with
    | .obj fields =>
      match objExtract fields with
      | some t => some t
      | none => extract_transcript_from_output rest
    | _ => extract_transcript_from_output rest

/-- One file found in the temporary subtitle directory. -/
structure SubFile where
  name : String
  ext : Option String
  content : Except String String


/-- External-world inputs of one `get_video_transcript` run. -/
structure TranscriptEnv where
  printOutput : Except String (List (Option Json))
  subFiles : List SubFile
  description : Option String

/-- Temporary artifacts still existing when the command returns. -/
structure FsState where
  dirExists : Bool
  files : List String
deriving DecidableEq

instance {ε α : Type} [DecidableEq ε] [DecidableEq α] : DecidableEq (Except ε α) := fun a b =>
  match a, b with
  | .ok x, .ok y => decidable_of_iff (x = y) (by simp)
  | .error x, .error y => decidable_of_iff (x = y) (by simp)
  | .ok _, .error _ => .isFalse (by simp)
  | .error _, .ok _ => .isFalse (by simp)

/-- The error message of video.rs 79. -/
def noTranscriptMsg : String :=
  "No transcript available for this video. The video may not have subtitles."

/-- The subtitle-file loop of `get_video_transcript` (video.rs 58-74) plus
the fall-through cleanup and error (video.rs 77-79).  Each `.vtt`/`.srt`
file that can be read is parsed and then removed; a non-empty parse
returns immediately (leaving the directory and any remaining files in
place), and only the fall-through path removes the whole directory. -/
def subFileLoop : List SubFile → FsState → Except String String × FsState
  | [], _ => (.error noTranscriptMsg, ⟨false, []⟩)
  | f :: rest, st =>
    if f.ext = some "vtt" || f.ext = some "srt" then
      match f.content with
      | .ok content =>
        let transcript := parse_subtitle_file content
        let st' : FsState := ⟨st.dirExists, st.files.erase f.name⟩
        if rustTrimStr transcript = "" then subFileLoop rest st'
        else (.ok transcript, st')
      | .error _ => subFileLoop rest st
    else subFileLoop rest st

/-- Embedding of `get_video_transcript` (video.rs 11-80).  The first
yt-dlp invocation only yields a transcript when
`extract_transcript_from_output` finds one with non-empty trimmed text
(video.rs 28-35); otherwise the temporary directory is created and the
downloaded subtitle files are scanned. -/
def earlyTranscript (printOutput : Except String (List (Option Json))) : Option String :=
  match printOutput with
  | .ok lines =>
    match extract_transcript_from_output lines with
    | some t => if rustTrimStr t = "" then none else some t
    | none => none
  | .error _ => none

/-- Continuation of the embedding of `get_video_transcript`: the early
transcript (video.rs 25-35) if any, otherwise the temporary directory is
created, the subtitle download runs, and the directory scan decides. -/
def get_video_transcript (env : TranscriptEnv) : Except String String × FsState :=
  match earlyTranscript env.printOutput with
  | some t => (.ok t, ⟨false, []⟩)
  | none =>
    subFileLoop env.subFiles ⟨true, env.subFiles.map (fun f => f.name)⟩

/-- A file the subtitle-file loop would accept: a readable `.vtt`/`.srt`
file whose parsed text has non-empty trim. -/
def usableFile (f : SubFile) : Bool :=
  (f.ext = some "vtt" || f.ext = some "srt") &&
    (match f.content with
     | .ok c => if rustTrimStr (parse_subtitle_file c) = "" then false else true
     | .error _ => false)

/-! ## Concrete fixtures used by the spec's scenarios -/

/-- Scenario C's caption input. -/
def scenarioC : String :=
  "00:00:01.000 --> 00:00:02.000\nHello <i>world</i>\n\n00:00:02.000 --> 00:00:03.000\nHello <i>world</i>\n"

/-- A run in which both yt-dlp invocations produce nothing usable while a
long video description is available. -/
def envNoCaptions : TranscriptEnv :=
  ⟨.error "yt-dlp command failed", [],
   some (String.mk (List.replicate 300 'a'))⟩

/-- A run in which the first yt-dlp print call fails, and the subtitle
download leaves two caption files in the temporary directory, the first of
which parses to non-trivial text. -/
def envTwoSubs : TranscriptEnv :=
  ⟨.error "yt-dlp command failed",
   [⟨"transcript.en.vtt", some "vtt",
     .ok "WEBVTT\n\n00:00:01.000 --> 00:00:02.000\nHello world from captions\n"⟩,
    ⟨"transcript.vi.vtt", some "vtt", .ok "WEBVTT\n"⟩],
   none⟩

/-- A transcript of 2667 three-byte characters: 8001 bytes in total, with
byte 8000 falling inside the final character. -/
def bigTranscript : String := String.mk (List.replicate 2667 'あ')

/-! # Theorems -/

/-! ## Helper lemmas -/

/-- `rustTrim` of an all-whitespace list is empty. -/
theorem rustTrim_all_ws {l : List Char} (h : ∀ c ∈ l, isWs c = true) :
    rustTrim l = [] := by
  unfold rustTrim
  have h1 : l.dropWhile isWs = [] := List.dropWhile_eq_nil_iff.2 h
  rw [h1]
  simp

/-- Folding byte sizes from any accumulator. -/
theorem byteLen_foldl (l : List Char) :
    ∀ a : Nat, l.foldl (fun a c => a + c.utf8Size) a = a + byteLen l := by
  induction l with
  | nil => intro a; simp [byteLen]
  | cons c cs ih =>
    intro a
    simp only [List.foldl_cons, byteLen] at ih ⊢
    rw [ih (a + c.utf8Size), ih (0 + c.utf8Size)]
    omega

/-- `byteLen` unfolds one character at a time. -/
theorem byteLen_cons (c : Char) (cs : List Char) :
    byteLen (c :: cs) = c.utf8Size + byteLen cs := by
  show (c :: cs).foldl (fun a c => a + c.utf8Size) 0 = c.utf8Size + byteLen cs
  rw [List.foldl_cons, byteLen_foldl]
  omega

/-- Byte length of a repeated character. -/
theorem byteLen_replicate (n : Nat) (c : Char) :
    byteLen (List.replicate n c) = n * c.utf8Size := by
  induction n with
  | zero => simp [byteLen]
  | succ k ih =>
    rw [List.replicate_succ, byteLen_cons, ih]
    ring

/-- A successful byte slice is a prefix of exactly the requested length. -/
theorem takeBytes_spec {l : List Char} :
    ∀ {n : Nat} {p : List Char}, takeBytes n l = some p → p <+: l ∧ byteLen p = n := by
  induction l with
  | nil =>
    intro n p h
    cases n with
    | zero =>
      simp only [takeBytes, Option.some.injEq] at h
      subst h
      exact ⟨List.nil_prefix, rfl⟩
    | succ k => simp [takeBytes] at h
  | cons c cs ih =>
    intro n p h
    cases n with
    | zero =>
      simp only [takeBytes, Option.some.injEq] at h
      subst h
      exact ⟨List.nil_prefix, rfl⟩
    | succ k =>
      simp only [takeBytes] at h
      by_cases hsz : c.utf8Size ≤ k + 1
      · rw [if_pos hsz] at h
        cases ht : takeBytes (k + 1 - c.utf8Size) cs with
        | none => rw [ht] at h; simp at h
        | some p' =>
          rw [ht] at h
          simp only [Option.map_some', Option.some.injEq] at h
          subst h
          obtain ⟨hp, hlen⟩ := ih ht
          constructor
          · exact List.cons_prefix_cons.2 ⟨rfl, hp⟩
          · rw [byteLen_cons, hlen]
            omega
      · rw [if_neg hsz] at h
        simp at h

/-- Byte slicing a run of one-byte characters succeeds at every index. -/
theorem takeBytes_replicate_one : ∀ (k m : Nat), m ≤ k →
    takeBytes m (List.replicate k 'a') = some (List.replicate m 'a') := by
  intro k
  induction k with
  | zero =>
    intro m hm
    have : m = 0 := Nat.le_zero.1 hm
    subst this
    rfl
  | succ j ih =>
    intro m hm
    cases m with
    | zero => rfl
    | succ i =>
      rw [List.replicate_succ]
      simp only [takeBytes]
      have hsz : ('a').utf8Size = 1 := by decide
      rw [if_pos (by omega)]
      rw [hsz]
      have : i + 1 - 1 = i := by omega
      rw [this, ih i (by omega)]
      rw [List.replicate_succ]
      rfl

/-- Byte slicing a run of three-byte characters panics whenever the
requested length is not a multiple of three (and within the run). -/
theorem takeBytes_replicate_three : ∀ (k m : Nat), m % 3 ≠ 0 → m ≤ 3 * k →
    takeBytes m (List.replicate k 'あ') = none := by
  intro k
  induction k with
  | zero =>
    intro m hm hle
    interval_cases m
    · exact absurd rfl hm
  | succ j ih =>
    intro m hm hle
    cases m with
    | zero => exact absurd rfl hm
    | succ i =>
      rw [List.replicate_succ]
      simp only [takeBytes]
      have hsz : ('あ').utf8Size = 3 := by decide
      rw [hsz]
      by_cases h3 : 3 ≤ i + 1
      · rw [if_pos h3]
        rw [ih (i + 1 - 3) (by omega) (by omega)]
        rfl
      · rw [if_neg h3]

/-- The empty needle is contained in every haystack. -/
theorem containsSeq_nil_left : ∀ l : List Char, containsSeq [] l = true
  | [] => rfl
  | _ :: rest => by
    simp [containsSeq, containsSeq_nil_left rest]

/-- Substring containment survives appending on the right. -/
theorem containsSeq_append_right {n u : List Char} (v : List Char)
    (h : containsSeq n u = true) : containsSeq n (u ++ v) = true := by
  induction u with
  | nil =>
    have hn : n = [] := by
      have := List.isPrefixOf_iff_prefix.1 h
      simpa using this
    subst hn
    simpa using containsSeq_nil_left v
  | cons c rest ih =>
    simp only [containsSeq, Bool.or_eq_true] at h
    rcases h with h | h
    · have hp : n <+: c :: rest := List.isPrefixOf_iff_prefix.1 h
      have hp2 : n <+: (c :: rest) ++ v := hp.trans (List.prefix_append _ _)
      simp only [List.cons_append, containsSeq, Bool.or_eq_true]
      exact Or.inl (List.isPrefixOf_iff_prefix.2 (by simpa using hp2))
    · simp only [List.cons_append, containsSeq, Bool.or_eq_true]
      exact Or.inr (ih h)

/-- A single-character needle is contained wherever the character occurs. -/
theorem containsSeq_of_mem {c : Char} {l : List Char} (h : c ∈ l) :
    containsSeq [c] l = true := by
  induction l with
  | nil => cases h
  | cons x rest ih =>
    rcases List.mem_cons.1 h with rfl | h
    · simp only [containsSeq, Bool.or_eq_true]
      exact Or.inl (List.isPrefixOf_iff_prefix.2 (by simp))
    · simp only [containsSeq, Bool.or_eq_true]
      exact Or.inr (ih h)

/-- The percent pattern cannot match at a non-digit character. -/
theorem matchPercentAt_nodigit {c : Char} {rest : List Char} (h : c.isDigit = false) :
    matchPercentAt (c :: rest) = none := by
  simp [matchPercentAt, List.span_eq_take_drop, List.takeWhile_cons, h]

/-- The leftmost scan skips a digit-free prefix. -/
theorem findPercent_append_nodigit {u : List Char}
    (h : ∀ c ∈ u, c.isDigit = false) (rest : List Char) :
    findPercent (u ++ rest) = findPercent rest := by
  induction u with
  | nil => rfl
  | cons c cs ih =>
    have hc : c.isDigit = false := h c (List.mem_cons_self c cs)
    simp only [List.cons_append, findPercent,
      matchPercentAt_nodigit hc]
    exact ih (fun x hx => h x (List.mem_cons_of_mem c hx))

/-- A digit-free list has no percent match at all. -/
theorem findPercent_none_of_nodigit {l : List Char}
    (h : ∀ c ∈ l, c.isDigit = false) : findPercent l = none := by
  have := findPercent_append_nodigit h []
  simpa using this

/-- The percent pattern at a token `digits '.' digits '%'`. -/
theorem matchPercentAt_digits_dot {d f r : List Char} (hd : d ≠ [])
    (hdd : ∀ c ∈ d, c.isDigit = true) (hf : ∀ c ∈ f, c.isDigit = true) :
    matchPercentAt (d ++ '.' :: (f ++ '%' :: r)) = some (decimalVal d f, r) := by
  have hdot : Char.isDigit '.' = false := by decide
  have hpct : Char.isDigit '%' = false := by decide
  have htw : (d ++ '.' :: (f ++ '%' :: r)).takeWhile Char.isDigit = d := by
    rw [List.takeWhile_append_of_pos hdd, List.takeWhile_cons, hdot]
    simp
  have hdw : (d ++ '.' :: (f ++ '%' :: r)).dropWhile Char.isDigit
      = '.' :: (f ++ '%' :: r) := by
    rw [List.dropWhile_append_of_pos hdd, List.dropWhile_cons, hdot]
    simp
  have htw2 : (f ++ '%' :: r).takeWhile Char.isDigit = f := by
    rw [List.takeWhile_append_of_pos hf, List.takeWhile_cons, hpct]
    simp
  have hdw2 : (f ++ '%' :: r).dropWhile Char.isDigit = '%' :: r := by
    rw [List.dropWhile_append_of_pos hf, List.dropWhile_cons, hpct]
    simp
  simp only [matchPercentAt, List.span_eq_take_drop, htw, hdw, htw2, hdw2]
  rw [if_neg hd]
  simp

/-- The percent pattern at a token `digits '%'`. -/
theorem matchPercentAt_digits_nodot {d r : List Char} (hd : d ≠ [])
    (hdd : ∀ c ∈ d, c.isDigit = true) :
    matchPercentAt (d ++ '%' :: r) = some (decimalVal d [], r) := by
  have hpct : Char.isDigit '%' = false := by decide
  have htw : (d ++ '%' :: r).takeWhile Char.isDigit = d := by
    rw [List.takeWhile_append_of_pos hdd, List.takeWhile_cons, hpct]
    simp
  have hdw : (d ++ '%' :: r).dropWhile Char.isDigit = '%' :: r := by
    rw [List.dropWhile_append_of_pos hdd, List.dropWhile_cons, hpct]
    simp
  simp only [matchPercentAt, List.span_eq_take_drop, htw, hdw]
  rw [if_neg hd]
  simp

/-- `findPercent` returns the match found at the very first position. -/
theorem findPercent_of_matchAt {l : List Char} {x : Rat × List Char}
    (hl : l ≠ []) (h : matchPercentAt l = some x) : findPercent l = some x := by
  cases l with
  | nil => exact absurd rfl hl
  | cons c rest => simp [findPercent, h]

/-- Whatever the speed/ETA groups yield, the emitted percent is the value
found by `findPercent`. -/
theorem parse_progress_percent_of_findPercent {l : List Char} {v : Rat} {after : List Char}
    (hdl : containsSeq ("[download]").data l = true)
    (hpc : containsSeq ("%").data l = true)
    (hfp : findPercent l = some (v, after)) :
    (parse_progress l).map (fun t => t.percent) = some v := by
  have hcond : (containsSeq ("[download]").data l && containsSeq ("%").data l) = true := by
    rw [hdl, hpc]
    rfl
  unfold parse_progress
  simp only [hcond, if_true, hfp]
  dsimp only
  cases matchTokenAfter ("at").data after with
  | none =>
    dsimp only
    cases matchTokenAfter ("ETA").data after with
    | none => rfl
    | some p2 => rfl
  | some p =>
    obtain ⟨tok, rest⟩ := p
    dsimp only
    cases matchTokenAfter ("ETA").data rest with
    | none => rfl
    | some p2 => rfl

/-- The duplicate-of-previous check keeps adjacent retained lines
distinct, whatever the accumulator. -/
theorem chain_ne_subtitleFold (lines : List (List Char)) :
    ∀ acc, List.Chain' (fun a b => a ≠ b) acc →
      List.Chain' (fun a b => a ≠ b) (lines.foldl subtitleFold acc) := by
  induction lines with
  | nil => exact fun acc h => h
  | cons l ls ih =>
    intro acc h
    rw [List.foldl_cons]
    apply ih
    cases hc : lineClean l with
    | none => simpa [subtitleFold, hc] using h
    | some c =>
      simp only [subtitleFold, hc]
      by_cases hlast : acc.getLast? = some c
      · rw [if_pos hlast]
        exact h
      · rw [if_neg hlast]
        refine List.chain'_append.2 ⟨h, List.chain'_singleton c, ?_⟩
        intro x hx y hy
        have hxc : acc.getLast? = some x := hx
        have hyc : c = y := by simpa using hy
        intro hxy
        apply hlast
        rw [hxc, hxy, hyc]

/-- The tail after the first `'>'` is a sublist of the scanned list. -/
theorem findTagEnd_sublist {l a b : List Char} (h : findTagEnd l = some (a, b)) :
    List.Sublist b l := by
  induction l generalizing a b with
  | nil => simp [findTagEnd] at h
  | cons c rest ih =>
    simp only [findTagEnd] at h
    by_cases hc : c = '>'
    · rw [if_pos hc] at h
      simp only [Option.some.injEq, Prod.mk.injEq] at h
      exact h.2 ▸ List.Sublist.cons c (List.Sublist.refl rest)
    · rw [if_neg hc] at h
      cases hr : findTagEnd rest with
      | none => rw [hr] at h; simp at h
      | some p =>
        obtain ⟨a', b'⟩ := p
        rw [hr] at h
        simp only [Option.map_some', Option.some.injEq, Prod.mk.injEq] at h
        exact h.2 ▸ List.Sublist.cons c (ih hr)

/-- Tag stripping only removes characters. -/
theorem stripTagsFuel_sublist : ∀ (fuel : Nat) (l : List Char),
    List.Sublist (stripTagsFuel fuel l) l := by
  intro fuel
  induction fuel with
  | zero =>
    intro l
    cases l with
    | nil => exact List.Sublist.refl []
    | cons c rest => exact List.nil_sublist _
  | succ k ih =>
    intro l
    cases l with
    | nil => exact List.Sublist.refl []
    | cons c rest =>
      simp only [stripTagsFuel]
      by_cases hc : c = '<'
      · rw [if_pos hc]
        cases hr : findTagEnd rest with
        | none => exact List.cons_sublist_cons.2 (ih rest)
        | some p =>
          obtain ⟨inner, after⟩ := p
          dsimp only
          by_cases hi : inner = []
          · rw [if_pos hi]
            exact List.cons_sublist_cons.2 (ih rest)
          · rw [if_neg hi]
            exact List.Sublist.cons c ((ih after).trans (findTagEnd_sublist hr))
      · rw [if_neg hc]
        exact List.cons_sublist_cons.2 (ih rest)

/-- `stripTags` output is a sublist of its input. -/
theorem stripTags_sublist (l : List Char) : List.Sublist (stripTags l) l :=
  stripTagsFuel_sublist l.length l

/-- Trimming only removes characters. -/
theorem rustTrim_sublist (l : List Char) : List.Sublist (rustTrim l) l := by
  unfold rustTrim
  have h1 : List.Sublist (l.dropWhile isWs) l := List.dropWhile_sublist _
  have h2 : List.Sublist ((l.dropWhile isWs).reverse.dropWhile isWs)
      ((l.dropWhile isWs).reverse) :=
    List.dropWhile_sublist _
  have h3 := h2.reverse
  rw [List.reverse_reverse] at h3
  exact h3.trans h1

/-- The last character of a trimmed non-empty list is not whitespace. -/
theorem rustTrim_getLast_not_ws {l : List Char} {x : Char}
    (h : (rustTrim l).getLast? = some x) : isWs x = false := by
  unfold rustTrim at h
  rw [List.getLast?_reverse] at h
  have hw := List.head?_dropWhile_not isWs ((l.dropWhile isWs).reverse)
  rw [h] at hw
  simpa using hw

/-- A retained cleaned line is a non-empty trim-image of its source line. -/
theorem lineClean_eq_some {line c : List Char} (h : lineClean line = some c) :
    c = rustTrim (stripTags (rustTrim line)) ∧ c ≠ [] := by
  simp only [lineClean] at h
  split_ifs at h with h1 h2 h3 h4 h5 h6
  all_goals first
    | exact Option.noConfusion h
    | (have hc : rustTrim (stripTags (rustTrim line)) = c := Option.some.inj h
       subst hc
       exact ⟨rfl, h6⟩)

/-- Every retained line comes from the accumulator or from `lineClean` of
one of the folded lines. -/
theorem foldl_subtitleFold_mem : ∀ (lines acc : List (List Char)) (x : List Char),
    x ∈ lines.foldl subtitleFold acc →
    x ∈ acc ∨ ∃ line ∈ lines, lineClean line = some x := by
  intro lines
  induction lines with
  | nil => exact fun acc x h => Or.inl h
  | cons l ls ih =>
    intro acc x h
    rw [List.foldl_cons] at h
    rcases ih _ x h with hx | ⟨line, hline, hlc⟩
    · unfold subtitleFold at hx
      cases hc : lineClean l with
      | none => rw [hc] at hx; exact Or.inl hx
      | some cl =>
        rw [hc] at hx
        dsimp only at hx
        by_cases hlast : acc.getLast? = some cl
        · rw [if_pos hlast] at hx
          exact Or.inl hx
        · rw [if_neg hlast] at hx
          rcases List.mem_append.1 hx with hx | hx
          · exact Or.inl hx
          · have hxc : x = cl := by simpa using hx
            exact Or.inr ⟨l, List.mem_cons_self _ _, hxc ▸ hc⟩
    · exact Or.inr ⟨line, List.mem_cons_of_mem _ hline, hlc⟩

/-- Segments produced by the newline splitter contain no newline. -/
theorem mem_splitNl_no_newline : ∀ (l m : List Char), m ∈ splitNl l → '\n' ∉ m := by
  intro l
  induction l with
  | nil =>
    intro m hm
    have hm0 : m = [] := by simpa [splitNl] using hm
    subst hm0
    simp
  | cons c cs ih =>
    intro m hm
    simp only [splitNl] at hm
    by_cases hc : c = '\n'
    · rw [if_pos hc] at hm
      rcases List.mem_cons.1 hm with rfl | hm
      · simp
      · exact ih m hm
    · rw [if_neg hc] at hm
      cases hs : splitNl cs with
      | nil =>
        rw [hs] at hm
        have hm0 : m = [c] := by simpa using hm
        subst hm0
        intro hnl
        have h0 : '\n' = c := by simpa using hnl
        exact hc h0.symm
      | cons t ts =>
        rw [hs] at hm
        dsimp only at hm
        rcases List.mem_cons.1 hm with rfl | hm
        · intro hnl
          rcases List.mem_cons.1 hnl with hEq | hnl
          · exact hc hEq.symm
          · have htm : t ∈ splitNl cs := by rw [hs]; exact List.mem_cons_self t ts
            exact ih t htm hnl
        · have hmm : m ∈ splitNl cs := by rw [hs]; exact List.mem_cons_of_mem t hm
          exact ih m hmm

/-- A newline-free list splits into itself. -/
theorem splitNl_no_newline {l : List Char} (h : '\n' ∉ l) : splitNl l = [l] := by
  induction l with
  | nil => rfl
  | cons c cs ih =>
    have hc : ¬ c = '\n' := fun hEq => h (hEq ▸ List.mem_cons_self c cs)
    simp only [splitNl]
    rw [if_neg hc, ih (fun hm => h (List.mem_cons_of_mem c hm))]

/-- Lines produced by `rustLines` contain no newline. -/
theorem mem_rustLines_no_newline {l m : List Char} (h : m ∈ rustLines l) :
    '\n' ∉ m := by
  simp only [rustLines] at h
  rcases List.mem_map.1 h with ⟨m0, hm0, rfl⟩
  have hm0' : m0 ∈ splitNl l := by
    by_cases hcond : (splitNl l).getLast? = some ([] : List Char)
    · rw [if_pos hcond] at hm0
      exact List.dropLast_subset _ hm0
    · rw [if_neg hcond] at hm0
      exact hm0
  have hnl := mem_splitNl_no_newline l m0 hm0'
  intro hmem
  apply hnl
  unfold stripCr at hmem
  by_cases hlast : m0.getLast? = some '\r'
  · rw [if_pos hlast] at hmem
    exact List.dropLast_subset _ hmem
  · rw [if_neg hlast] at hmem
    exact hmem

/-- A non-empty newline-free list whose last character is not a carriage
return is its own single Rust line. -/
theorem rustLines_single {l : List Char} (hne : l ≠ []) (hnl : '\n' ∉ l)
    (hcr : l.getLast? ≠ some '\r') : rustLines l = [l] := by
  simp only [rustLines]
  rw [splitNl_no_newline hnl]
  rw [if_neg (by simpa using hne)]
  simp only [List.map_cons, List.map_nil]
  unfold stripCr
  rw [if_neg hcr]

/-- Characters of the joined output come from the pieces or are the
separating space. -/
theorem joinSpace_mem : ∀ (texts : List (List Char)) (ch : Char),
    ch ∈ joinSpace texts → ch = ' ' ∨ ∃ t ∈ texts, ch ∈ t := by
  intro texts
  induction texts with
  | nil =>
    intro ch h
    simp [joinSpace] at h
  | cons t ts ih =>
    intro ch h
    cases ts with
    | nil => exact Or.inr ⟨t, List.mem_singleton_self t, h⟩
    | cons t2 ts2 =>
      have h' : ch ∈ t ++ ' ' :: joinSpace (t2 :: ts2) := h
      rcases List.mem_append.1 h' with h1 | h1
      · exact Or.inr ⟨t, List.mem_cons_self _ _, h1⟩
      · rcases List.mem_cons.1 h1 with rfl | h2
        · exact Or.inl rfl
        · rcases ih ch h2 with h3 | ⟨u, hu, hcu⟩
          · exact Or.inl h3
          · exact Or.inr ⟨u, List.mem_cons_of_mem _ hu, hcu⟩

/-- The caption parser's output contains no newline. -/
theorem no_newline_parse (s : String) : '\n' ∉ (parse_subtitle_file s).data := by
  intro hmem
  have hmem' : '\n' ∈ joinSpace (retainedLines s.data) := hmem
  rcases joinSpace_mem _ _ hmem' with h | ⟨t, ht, hin⟩
  · exact absurd h (by decide)
  · rcases foldl_subtitleFold_mem _ _ _ ht with h0 | ⟨line, hline, hlc⟩
    · simp at h0
    · obtain ⟨ht_eq, -⟩ := lineClean_eq_some hlc
      have hsub : List.Sublist t line := by
        rw [ht_eq]
        exact (rustTrim_sublist _).trans ((stripTags_sublist _).trans (rustTrim_sublist _))
      exact mem_rustLines_no_newline hline (hsub.subset hin)

/-! ## Claim theorems -/

/-- Claim C1 (code bug): on Scenario A's exact line the progress parser
returns percent 42.5 but empty transfer-rate and ETA texts — the regex's
lazy `.*?` pieces mean the optional `at`/`ETA` capture groups are only
tried immediately after the `%`, where `" of …"` follows, so they can
never capture on real yt-dlp lines. -/
theorem parse_progress_scenarioA_speed_eta_empty :
    parseProgressStr "[download]  42.5% of 10.00MiB at 1.20MiB/s ETA 00:05" =
      some ⟨mkRat 85 2, [], [], none, none⟩ := by decide

/-- Claim C2, counterexample: the parser performs no range check, so the
line `"[download] 150.5%"` yields a progress event whose percent 150.5
lies outside `[0,100]`, contradicting the claim as stated. -/
theorem parse_progress_percent_not_bounded :
    (parseProgressStr "[download] 150.5%").map (fun t => t.percent) = some (mkRat 301 2) ∧
      ¬ (mkRat 301 2 ≤ 100) := by decide

/-- Claim C2 (amended): for every line that contains `"[download]"` and a
well-formed percent token `digits['.'digits]'%'` (first such token, with
no digits occurring before it), the parser emits a progress event whose
percent equals that decimal value — with no `[0,100]` restriction — and a
line containing `'%'` but no digit at all produces no event and no
error. -/
theorem parse_progress_percent_amended :
    (∀ u d f r : List Char,
      containsSeq ("[download]").data u = true → (∀ c ∈ u, c.isDigit = false) →
      d ≠ [] → (∀ c ∈ d, c.isDigit = true) → (∀ c ∈ f, c.isDigit = true) →
      (parse_progress (u ++ (d ++ '.' :: (f ++ '%' :: r)))).map (fun t => t.percent) =
        some (decimalVal d f)) ∧
    (∀ u d r : List Char,
      containsSeq ("[download]").data u = true → (∀ c ∈ u, c.isDigit = false) →
      d ≠ [] → (∀ c ∈ d, c.isDigit = true) →
      (parse_progress (u ++ (d ++ '%' :: r))).map (fun t => t.percent) =
        some (decimalVal d [])) ∧
    (∀ l : List Char, containsSeq ("%").data l = true → (∀ c ∈ l, c.isDigit = false) →
      parse_progress l = none) := by
  refine ⟨?_, ?_, ?_⟩
  · intro u d f r hu hud hd hdd hf
    have hX : d ++ '.' :: (f ++ '%' :: r) ≠ [] := by
      simp
    apply parse_progress_percent_of_findPercent
    · exact containsSeq_append_right _ hu
    · have hmem : '%' ∈ u ++ (d ++ '.' :: (f ++ '%' :: r)) := by
        refine List.mem_append_right _ (List.mem_append_right _ ?_)
        exact List.mem_cons_of_mem _ (List.mem_append_right _ (List.mem_cons_self _ _))
      exact containsSeq_of_mem hmem
    · rw [findPercent_append_nodigit hud]
      exact findPercent_of_matchAt hX (matchPercentAt_digits_dot hd hdd hf)
  · intro u d r hu hud hd hdd
    have hX : d ++ '%' :: r ≠ [] := by
      simp
    apply parse_progress_percent_of_findPercent
    · exact containsSeq_append_right _ hu
    · have hmem : '%' ∈ u ++ (d ++ '%' :: r) := by
        exact List.mem_append_right _ (List.mem_append_right _ (List.mem_cons_self _ _))
      exact containsSeq_of_mem hmem
    · rw [findPercent_append_nodigit hud]
      exact findPercent_of_matchAt hX (matchPercentAt_digits_nodot hd hdd)
  · intro l hpc hnod
    unfold parse_progress
    cases hgate : (containsSeq ("[download]").data l && containsSeq ("%").data l) with
    | true => simp [hgate, findPercent_none_of_nodigit hnod]
    | false => simp [hgate]

/-- Witness for C2 (amended) on the tokens `42.5%`, `9%` and a digit-free
percent line. -/
theorem parse_progress_percent_amended_witness :
    (parse_progress (("[download] ").data
        ++ (['4', '2'] ++ '.' :: (['5'] ++ '%' :: (" of x").data)))).map
        (fun t => t.percent) = some (decimalVal ['4', '2'] ['5']) ∧
    (parse_progress (("[download] ").data ++ (['9'] ++ '%' :: []))).map
        (fun t => t.percent) = some (decimalVal ['9'] []) ∧
    parse_progress ("[download] %").data = none :=
  ⟨parse_progress_percent_amended.1 ("[download] ").data ['4', '2'] ['5'] (" of x").data
     (by decide) (by decide) (by decide) (by decide) (by decide),
   parse_progress_percent_amended.2.1 ("[download] ").data ['9'] []
     (by decide) (by decide) (by decide) (by decide),
   parse_progress_percent_amended.2.2 ("[download] %").data (by decide) (by decide)⟩

/-- Claim C3: at process termination, a set cancellation flag forces the
cancelled outcome whatever the exit code is; an unset flag with exit code
0 emits the terminal finished event and returns success; an unset flag
with a nonzero exit code yields the download-failed error.  Both the
sidecar event loop and the tokio fallback classify identically. -/
theorem download_terminal_classification :
    (∀ (code : Option Int) (id : String) (title : Option String) (pidx pcnt : Option Nat),
      handle_terminated true code id title pidx pcnt = (none, .error "Download cancelled") ∧
      tokio_wait_outcome true (code = some 0) id title pidx pcnt =
        (none, .error "Download cancelled")) ∧
    (∀ (id : String) (title : Option String) (pidx pcnt : Option Nat),
      handle_terminated false (some 0) id title pidx pcnt =
        (some (finishedProgress id title pidx pcnt), .ok ()) ∧
      tokio_wait_outcome false true id title pidx pcnt =
        (some (finishedProgress id title pidx pcnt), .ok ()) ∧
      (finishedProgress id title pidx pcnt).status = "finished") ∧
    (∀ (n : Int), n ≠ 0 →
      ∀ (id : String) (title : Option String) (pidx pcnt : Option Nat),
      handle_terminated false (some n) id title pidx pcnt = (none, .error "Download failed") ∧
      tokio_wait_outcome false false id title pidx pcnt = (none, .error "Download failed")) := by
  refine ⟨fun code id title pidx pcnt => ?_, fun id title pidx pcnt => ?_,
    fun n hn id title pidx pcnt => ?_⟩
  · exact ⟨rfl, rfl⟩
  · exact ⟨rfl, rfl, rfl⟩
  · constructor
    · simp only [handle_terminated, if_neg (Bool.false_ne_true), Option.some.injEq]
      rw [if_neg]
      simp [hn]
    · rfl

/-- Witness for C3 at exit code 1. -/
theorem download_terminal_classification_witness :
    handle_terminated false (some 1) "job" none none none = (none, .error "Download failed") :=
  (download_terminal_classification.2.2 1 (by decide) "job" none none none).1

/-- Claim C4: for every provider configuration, a transcript that is empty
or all whitespace makes `generate_summary` return `NoTranscript` before
any backend request is constructed. -/
theorem generate_summary_empty_transcript (config : AIConfig) (transcript : String)
    (h : ∀ c ∈ transcript.data, isWs c = true) :
    generate_summary config transcript = .error .NoTranscript := by
  have ht : rustTrimStr transcript = "" := by
    unfold rustTrimStr
    rw [rustTrim_all_ws h]
  unfold generate_summary
  rw [if_pos ht]

/-- Witness for C4: the default (Gemini) configuration with a whitespace
transcript. -/
theorem generate_summary_empty_transcript_witness :
    generate_summary AIConfig.defaultConfig " \t " = .error .NoTranscript :=
  generate_summary_empty_transcript AIConfig.defaultConfig " \t " (by decide)

/-- Claim C5: the caption parser drops a line equal to the immediately
preceding retained line (adjacent retained lines are always distinct) and
joins retained lines with single spaces; on Scenario C's duplicated cue
text it returns exactly `"Hello world"`. -/
theorem parse_subtitle_scenarioC_and_dedup :
    parse_subtitle_file scenarioC = "Hello world" ∧
    ∀ (s : String), List.Chain' (fun a b => a ≠ b) (retainedLines s.data) :=
  ⟨by decide,
   fun s => chain_ne_subtitleFold (rustLines s.data) [] List.chain'_nil⟩

/-- Claim C9 (code bug): when a subtitle file parses to non-empty text,
`get_video_transcript` returns success after deleting only that one file —
the temporary directory and the remaining subtitle file survive the
success exit path, so temporary artifacts are not removed on every exit
path. -/
theorem get_video_transcript_leaks_tempdir_on_success :
    get_video_transcript envTwoSubs =
      (.ok "Hello world from captions", ⟨true, ["transcript.vi.vtt"]⟩) := by decide

set_option maxRecDepth 4000 in
/-- Claim C8, counterexample: with no usable caption output and a 300
character description available, `get_video_transcript` still returns the
no-transcript error — the code never requests or returns the descriptive
metadata. -/
theorem get_video_transcript_no_description_fallback :
    (get_video_transcript envNoCaptions).1 = .error noTranscriptMsg ∧
      envNoCaptions.description.isSome = true ∧
      100 ≤ (envNoCaptions.description.getD "").length := by decide

/-- Claim C10: `generate_video_summary` rejects a disabled configuration
with the settings error before any prompt construction or backend
dispatch, and any successful dispatch implies the configuration was
enabled. -/
theorem generate_video_summary_requires_enabled :
    (∀ (config : AIConfig) (transcript : String), config.enabled = false →
      generate_video_summary config transcript =
        .error "AI features are disabled. Enable them in Settings.") ∧
    (∀ (config : AIConfig) (transcript : String) (d : Dispatch),
      generate_video_summary config transcript = .ok d → config.enabled = true) := by
  constructor
  · intro config transcript h
    unfold generate_video_summary
    rw [if_pos h]
  · intro config transcript d h
    by_contra hne
    have hfalse : config.enabled = false := by
      cases he : config.enabled
      · rfl
      · exact absurd he hne
    unfold generate_video_summary at h
    rw [if_pos hfalse] at h
    exact absurd h (by simp)

/-- Witness for C10: the default configuration is disabled and rejected;
an enabled Gemini configuration with an API key dispatches, hence is
enabled. -/
theorem generate_video_summary_requires_enabled_witness :
    generate_video_summary AIConfig.defaultConfig "hello" =
      .error "AI features are disabled. Enable them in Settings." ∧
    AIConfig.enabled ⟨true, .gemini, some "k", "m", none, .short, "auto"⟩ = true :=
  ⟨generate_video_summary_requires_enabled.1 AIConfig.defaultConfig "hello" rfl,
   generate_video_summary_requires_enabled.2 ⟨true, .gemini, some "k", "m", none, .short, "auto"⟩
     "hello"
     ⟨"Gemini", "https://generativelanguage.googleapis.com/v1beta/models/m:generateContent?key=k",
      build_prompt "hello" .short "auto", "m"⟩ rfl⟩

/-- Claim C7 (amended): prompt construction truncates the transcript to a
fixed 8000-BYTE budget.  A transcript of at most 8000 bytes is embedded
verbatim; a longer one is cut to its 8000-byte prefix (when byte 8000 ends
a character) followed by the `"... [truncated]"` marker; when the cut
falls inside a multi-byte character the byte slice panics, so the
construction is not total. -/
theorem build_prompt_byte_budget :
    (∀ (t : String) (s : SummaryStyle) (lang : String), rustLen t ≤ 8000 →
      build_prompt t s lang = some (promptText s lang t)) ∧
    (∀ (t : String) (s : SummaryStyle) (lang : String) (pre : List Char),
      8000 < rustLen t → takeBytes 8000 t.data = some pre →
      build_prompt t s lang =
          some (promptText s lang (String.mk pre ++ "... [truncated]")) ∧
        pre <+: t.data ∧ byteLen pre = 8000) ∧
    (∀ (t : String) (s : SummaryStyle) (lang : String),
      8000 < rustLen t → takeBytes 8000 t.data = none →
      build_prompt t s lang = none) := by
  refine ⟨?_, ?_, ?_⟩
  · intro t s lang h
    simp only [build_prompt]
    rw [if_neg (by omega)]
    rfl
  · intro t s lang pre h1 h2
    obtain ⟨hp, hlen⟩ := takeBytes_spec h2
    refine ⟨?_, hp, hlen⟩
    simp only [build_prompt]
    rw [if_pos h1, h2]
    rfl
  · intro t s lang h1 h2
    simp only [build_prompt]
    rw [if_pos h1, h2]
    rfl

/-- Claim C7, counterexample: on a transcript of 2667 three-byte
characters (8001 bytes), the slice `&transcript[..8000]` falls inside the
final character, so prompt construction panics — it is not total.  In the
embedding the panic is the `none` result. -/
theorem build_prompt_panics_on_multibyte_cut :
    build_prompt bigTranscript SummaryStyle.short "auto" = none ∧
      rustLen bigTranscript = 8001 := by
  have hsz : ('あ').utf8Size = 3 := by decide
  have hlen : rustLen bigTranscript = 8001 := by
    show byteLen (List.replicate 2667 'あ') = 8001
    rw [byteLen_replicate, hsz]
  refine ⟨?_, hlen⟩
  have h2 : takeBytes 8000 bigTranscript.data = none := by
    show takeBytes 8000 (List.replicate 2667 'あ') = none
    exact takeBytes_replicate_three 2667 8000 (by omega) (by omega)
  simp only [build_prompt]
  rw [if_pos (by omega), h2]
  rfl

/-- Witness for C7 (amended): a short transcript is embedded verbatim; a
run of 8005 one-byte characters is cut to its 8000-byte prefix plus
marker; the 8001-byte three-byte-character run panics. -/
theorem build_prompt_byte_budget_witness :
    build_prompt "hi" SummaryStyle.short "auto" =
        some (promptText SummaryStyle.short "auto" "hi") ∧
    (build_prompt (String.mk (List.replicate 8005 'a')) SummaryStyle.detailed "en" =
        some (promptText SummaryStyle.detailed "en"
          (String.mk (List.replicate 8000 'a') ++ "... [truncated]")) ∧
      List.replicate 8000 'a' <+: (String.mk (List.replicate 8005 'a')).data ∧
      byteLen (List.replicate 8000 'a') = 8000) ∧
    build_prompt bigTranscript SummaryStyle.detailed "auto" = none := by
  refine ⟨?_, ?_, ?_⟩
  · exact build_prompt_byte_budget.1 "hi" SummaryStyle.short "auto" (by decide)
  · refine build_prompt_byte_budget.2.1 (String.mk (List.replicate 8005 'a'))
      SummaryStyle.detailed "en" (List.replicate 8000 'a') ?_ ?_
    · show 8000 < byteLen (List.replicate 8005 'a')
      rw [byteLen_replicate]
      decide
    · exact takeBytes_replicate_one 8005 8000 (by omega)
  · refine build_prompt_byte_budget.2.2 bigTranscript SummaryStyle.detailed "auto" ?_ ?_
    · show 8000 < byteLen (List.replicate 2667 'あ')
      rw [byteLen_replicate]
      decide
    · show takeBytes 8000 (List.replicate 2667 'あ') = none
      exact takeBytes_replicate_three 2667 8000 (by omega) (by omega)

/-- Claim C6, counterexample: on the input `"-<i>->"` the first parse's tag
stripping manufactures the time-range artifact `"-->"`, which a second
parse filters out — so re-parsing the output changes it and a markup
artifact does survive in the output. -/
theorem parse_subtitle_not_idempotent :
    parse_subtitle_file (parse_subtitle_file "-<i>->") ≠ parse_subtitle_file "-<i>->" ∧
      parse_subtitle_file "-<i>->" = "-->" := by decide

/-- Claim C6 (amended): the caption parser is a pure total function, and
re-parsing its own output leaves it unchanged whenever the output — as a
single line — passes the parser's own line filters unchanged (in
particular whenever no markup-like artifact was manufactured into it);
tag stripping can manufacture such artifacts, in which case a second
parse reduces the text further. -/
theorem parse_subtitle_idempotent_cond (s : String)
    (h : parse_subtitle_file s = "" ∨
      lineClean (parse_subtitle_file s).data = some (parse_subtitle_file s).data) :
    parse_subtitle_file (parse_subtitle_file s) = parse_subtitle_file s := by
  rcases h with h | h
  · rw [h]
    decide
  · obtain ⟨-, hne⟩ := lineClean_eq_some h
    have hnl : '\n' ∉ (parse_subtitle_file s).data := no_newline_parse s
    have hcr : (parse_subtitle_file s).data.getLast? ≠ some '\r' := by
      intro hlast
      obtain ⟨heq, -⟩ := lineClean_eq_some h
      rw [heq] at hlast
      have hws := rustTrim_getLast_not_ws hlast
      exact absurd hws (by decide)
    have hrl : rustLines (parse_subtitle_file s).data = [(parse_subtitle_file s).data] :=
      rustLines_single hne hnl hcr
    show String.mk (joinSpace (retainedLines (parse_subtitle_file s).data)) =
      parse_subtitle_file s
    unfold retainedLines
    rw [hrl, List.foldl_cons, List.foldl_nil]
    unfold subtitleFold
    rw [h]
    dsimp only
    rw [if_neg (by simp)]
    rfl

/-- Witness for C6 (amended) at a plain single-line caption text. -/
theorem parse_subtitle_idempotent_cond_witness :
    parse_subtitle_file (parse_subtitle_file "hello world") =
      parse_subtitle_file "hello world" :=
  parse_subtitle_idempotent_cond "hello world" (Or.inr (by decide))

/-- When no file in the directory is usable, the loop falls through to the
cleanup-and-error exit. -/
theorem subFileLoop_all_unusable : ∀ (fs : List SubFile) (st : FsState),
    (∀ f ∈ fs, usableFile f = false) →
    subFileLoop fs st = (.error noTranscriptMsg, ⟨false, []⟩) := by
  intro fs
  induction fs with
  | nil => intro st _; rfl
  | cons f rest ih =>
    intro st hAll
    have hf := hAll f (List.mem_cons_self f rest)
    have hrest : ∀ g ∈ rest, usableFile g = false :=
      fun g hg => hAll g (List.mem_cons_of_mem f hg)
    simp only [subFileLoop]
    by_cases hext : (f.ext = some "vtt" || f.ext = some "srt" : Bool) = true
    · rw [if_pos hext]
      cases hc : f.content with
      | error e => exact ih _ hrest
      | ok content =>
        dsimp only
        by_cases htrim : rustTrimStr (parse_subtitle_file content) = ""
        · rw [if_pos htrim]
          exact ih _ hrest
        · exfalso
          simp only [usableFile, hc] at hf
          rw [if_neg htrim, hext] at hf
          simp at hf
    · rw [if_neg hext]
      exact ih _ hrest

/-- Claim C8 (amended): the transcript pipeline never consults the item's
descriptive metadata — its result is independent of the description — and
when neither the printed subtitle JSON nor any downloaded caption file
yields usable text, `get_video_transcript` returns the no-transcript
error directly (removing the temporary directory on that path). -/
theorem get_video_transcript_error_amended :
    (∀ (po : Except String (List (Option Json))) (sf : List SubFile)
        (d d' : Option String),
      get_video_transcript ⟨po, sf, d⟩ = get_video_transcript ⟨po, sf, d'⟩) ∧
    (∀ env : TranscriptEnv, earlyTranscript env.printOutput = none →
      (∀ f ∈ env.subFiles, usableFile f = false) →
      get_video_transcript env = (.error noTranscriptMsg, ⟨false, []⟩)) := by
  constructor
  · intro po sf d d'
    rfl
  · intro env hEarly hAll
    unfold get_video_transcript
    rw [hEarly]
    exact subFileLoop_all_unusable env.subFiles _ hAll

/-- Witness for C8 (amended): the captionless run errors out, and swapping
the description changes nothing. -/
theorem get_video_transcript_error_amended_witness :
    get_video_transcript envNoCaptions = (.error noTranscriptMsg, ⟨false, []⟩) ∧
    get_video_transcript ⟨.error "x", [], some "long description"⟩ =
      get_video_transcript ⟨.error "x", [], none⟩ :=
  ⟨get_video_transcript_error_amended.2 envNoCaptions (by decide)
     (fun f hf => absurd hf (List.not_mem_nil f)),
   get_video_transcript_error_amended.1 (.error "x") [] (some "long description") none⟩

end Youwee
